import Mathlib

set_option linter.unusedVariables false

/-!
Verification development for the TabularData CSV indexing library.

The embedding models `src/src/TabularData.cpp` (the variant spanning lines
1-829 of that file).  A source file is a byte list (`List Nat`, each entry in
`[0, 256)`); absolute byte offsets are `Nat`.  The C++ `u32`/`u64` position
counters only wrap beyond 2^32/2^64 bytes, far outside every input considered
here, so positions are tracked as plain `Nat`; the `u32`/`u16` truncations that
happen when header-index records are written to disk are modelled explicitly
with `% 2^32` / `% 2^16`.  Buffered reads (`CHUNK_SIZE` = 1 MiB chunks plus
the stream `peek` for the LF after a CR) are modelled as direct access to the
byte list.  For any input smaller than one chunk this is exact: the scan
loops then see the whole remaining file in their first buffer, the in-buffer
CRLF check covers every byte but the last, and for a final CR the stream
peek hits end of file.  (For multi-chunk files the C++ `peek` sits at the end
of the buffer rather than after the CR, an unrelated latent chunk-boundary
quirk; every input considered by the theorems below is far below 1 MiB.)
-/

namespace TabularData

/-- Byte value of a double quote. -/
def quoteB : Nat := 34

/-- Byte value of a comma. -/
def commaB : Nat := 44

/-- Byte value of carriage return. -/
def crB : Nat := 13

/-- Byte value of line feed. -/
def lfB : Nat := 10

/-- Scanner state of the anonymous-namespace `CsvState` (TabularData.cpp:252). -/
structure CsvState where
  inQuotes : Bool
  pendingQuote : Bool
deriving DecidableEq, Repr

def csvInit : CsvState := ⟨false, false⟩

/-- The not-in-quotes branch of `feed_csv` (TabularData.cpp:268-270).
`pending` is the current `pendingQuote` flag, which that branch leaves
untouched except when entering quotes. -/
def feedUnquoted (c : Nat) (pending : Bool) : CsvState × Bool :=
  if c = quoteB then (⟨true, false⟩, false)
  else if c = lfB ∨ c = crB then (⟨false, pending⟩, true)
  else (⟨false, pending⟩, false)

/-- Model of `feed_csv` (TabularData.cpp:257-271): feed one byte to the scanner; the
returned Bool is true exactly when the byte is an unquoted row terminator.
The C++ tail call that reprocesses a byte after a closing quote is inlined
via `feedUnquoted`. -/
def feed_csv (c : Nat) (st : CsvState) : CsvState × Bool :=
  if st.inQuotes then
    if st.pendingQuote then
      if c = quoteB then (⟨true, false⟩, false)
      else feedUnquoted c false
    else if c = quoteB then (⟨true, true⟩, false)
    else (⟨true, false⟩, false)
  else feedUnquoted c st.pendingQuote

/-- Forward scan shared by `find_first_data_offset` (TabularData.cpp:284-312)
and the tail of `resync_to_next_row_start`: consume bytes until the scanner
reports an unquoted row terminator and return the offset just after it
(consuming the LF of a CRLF); at end of input return the current offset. -/
def scanToNextRowStart : List Nat → Nat → CsvState → Nat
  | [], pos, _ => pos
  | c :: rest, pos, st =>
    let r := feed_csv c st
    if r.2 then
      if c = crB ∧ rest.head? = some lfB then pos + 2 else pos + 1
    else scanToNextRowStart rest (pos + 1) r.1

/-- Model of `find_first_data_offset` (TabularData.cpp:284-312): offset of the first
byte after the header row's terminator; the file length when the file has no
unquoted terminator at all. -/
def find_first_data_offset (file : List Nat) : Nat :=
  scanToNextRowStart file 0 csvInit

/-- Model of `resync_to_next_row_start` (TabularData.cpp:315-374): one-shot quote
disambiguation at `S`, then forward scan to the byte after the next unquoted
row terminator. -/
def resync_to_next_row_start (file : List Nat) (S : Nat) : Nat :=
  let fsize := file.length
  if S ≥ fsize then fsize
  else
    match file.drop S with
    | [] => fsize
    | c0 :: r1 =>
      if c0 = quoteB then
        match r1 with
        | [] => fsize
        | n1 :: r2 =>
          if n1 = commaB then scanToNextRowStart r2 (S + 2) csvInit
          else if n1 = lfB then S + 2
          else if n1 = crB then (if r2.head? = some lfB then S + 3 else S + 2)
          else if n1 = quoteB then
            match r2 with
            | [] => fsize
            | n2 :: r3 =>
              if n2 = commaB then scanToNextRowStart r3 (S + 3) csvInit
              else if n2 = lfB then S + 3
              else if n2 = crB then (if r3.head? = some lfB then S + 4 else S + 3)
              else scanToNextRowStart r2 (S + 2) ⟨true, false⟩
          else scanToNextRowStart r1 (S + 1) ⟨true, false⟩
      else scanToNextRowStart r1 (S + 1) csvInit

/-- Effect of one `handle_row_end` call (TabularData.cpp:403-429):
`emitted = some off` when the row-start offset `off` is written to the part
file, `abortMsg = some m` when the process is terminated with diagnostic `m`. -/
structure RowEndEffect where
  emitted : Option Nat
  abortMsg : Option String
deriving DecidableEq, Repr

/-- The diagnostic built at TabularData.cpp:417-419. -/
def mismatchMsg (currentRowStart expectedCols fields : Nat) : String :=
  "Column count mismatch at row starting offset " ++ toString currentRowStart ++
    ": expected " ++ toString expectedCols ++ ", found " ++ toString fields

/-- Model of `handle_row_end` (TabularData.cpp:403-429) as a pure function of the
per-row scan data.  Blank rows are ignored; a width mismatch is skipped or
aborts depending on `skipFaultyRows`; otherwise the row start is emitted. -/
def handle_row_end (rowNotBlank : Bool) (commaCount expectedCols : Nat)
    (skipFaultyRows : Bool) (currentRowStart : Nat) : RowEndEffect :=
  if ¬ rowNotBlank then ⟨none, none⟩
  else
    let fields := commaCount + 1
    if fields ≠ expectedCols then
      if skipFaultyRows then ⟨none, none⟩
      else ⟨none, some (mismatchMsg currentRowStart expectedCols fields)⟩
    else ⟨some currentRowStart, none⟩

/-- Result of one worker's `parse_slice_to_file`: emitted offsets (the part
file contents) and the reported row count `*rowsOut`. -/
structure SliceRes where
  offsets : List Nat
  rows : Nat
deriving DecidableEq, Repr

/-- Loop body of `parse_slice_to_file` (TabularData.cpp:431-458).  `fuel` is
an upper bound on the remaining byte count (each step consumes at least one
byte, and the top-level call passes the exact remaining length, so the fuel
never runs out); it only serves to make the CRLF double-consumption
structurally recursive. -/
def parse_slice_loop (expectedCols : Nat) (skip : Bool) (stop : Nat) :
    Nat → List Nat → Nat → CsvState → Nat → Nat → Bool → List Nat → Nat →
    Except String SliceRes
  | _, [], pos, _, cur, cc, nb, acc, rows =>
    -- EOF row without newline (TabularData.cpp:458)
    if pos > cur then
      let eff := handle_row_end nb cc expectedCols skip cur
      match eff.abortMsg with
      | some m => .error m
      | none =>
        match eff.emitted with
        | some off => .ok ⟨acc ++ [off], rows + 1⟩
        | none => .ok ⟨acc, rows⟩
    else .ok ⟨acc, rows⟩
  | 0, _ :: _, _, _, _, _, _, acc, rows => .ok ⟨acc, rows⟩
  | fuel + 1, c :: rest, pos, st, cur, cc, nb, acc, rows =>
    let cc' := if ¬ st.inQuotes ∧ c = commaB then cc + 1 else cc
    let nb' := if ¬ st.inQuotes ∧
        (c = commaB ∨ c = quoteB ∨ (c ≠ 32 ∧ c ≠ 9 ∧ c ≠ crB ∧ c ≠ lfB))
      then true else nb
    let r := feed_csv c st
    if r.2 then
      let crlf : Bool := c = crB ∧ rest.head? = some lfB
      let nextStart := if crlf then pos + 2 else pos + 1
      let eff := handle_row_end nb' cc' expectedCols skip cur
      match eff.abortMsg with
      | some m => .error m
      | none =>
        let acc' := match eff.emitted with
          | some off => acc ++ [off]
          | none => acc
        let rows' := match eff.emitted with
          | some _ => rows + 1
          | none => rows
        if nextStart ≥ stop then .ok ⟨acc', rows'⟩
        else
          parse_slice_loop expectedCols skip stop fuel
            (if crlf then rest.tail else rest) nextStart r.1 nextStart 0 false acc' rows'
    else parse_slice_loop expectedCols skip stop fuel rest (pos + 1) r.1 cur cc' nb' acc rows

/-- Model of `parse_slice_to_file` (TabularData.cpp:378-459): parse `[start, stop)`
(scanning on past `stop` up to the terminator that crosses it), validating row
widths.  `.error m` models the `std::terminate()` with diagnostic `m`. -/
def parse_slice_to_file (file : List Nat) (start stop : Nat)
    (expectedCols : Nat) (skip : Bool) : Except String SliceRes :=
  if start ≥ stop then .ok ⟨[], 0⟩
  else
    let rem := file.drop start
    parse_slice_loop expectedCols skip stop rem.length rem start csvInit start 0 false [] 0

/-- Nominal split starts of `findRowOffsets` (TabularData.cpp:490-497):
`S[t] = firstData + t*base + min t rem`. -/
def splitStart (firstData dataBytes N t : Nat) : Nat :=
  firstData + t * (dataBytes / N) + min t (dataBytes % N)

/-- Filesystem outcome of one `findRowOffsets` run: the per-thread part-file
contents, the merged `row_offsets.bin` contents (`none` = file untouched),
whether the part files were deleted, and the value stored into
`this->rowCount` (`none` = member untouched). -/
structure RowOffsetsFS where
  parts : List (List Nat)
  merged : Option (List Nat)
  partsDeleted : Bool
  rowCountSet : Option Nat
deriving DecidableEq, Repr

instance exceptDecEq {ε α : Type} [DecidableEq ε] [DecidableEq α] :
    DecidableEq (Except ε α) := fun x y =>
  match x, y with
  | .error a, .error b =>
    if h : a = b then .isTrue (h ▸ rfl) else .isFalse (fun hc => h (Except.error.inj hc))
  | .ok a, .ok b =>
    if h : a = b then .isTrue (h ▸ rfl) else .isFalse (fun hc => h (Except.ok.inj hc))
  | .error _, .ok _ => .isFalse (fun hc => Except.noConfusion hc)
  | .ok _, .error _ => .isFalse (fun hc => Except.noConfusion hc)

def sequenceExcept : List (Except String SliceRes) → Except String (List SliceRes)
  | [] => .ok []
  | .error m :: _ => .error m
  | .ok r :: rest =>
    match sequenceExcept rest with
    | .error m => .error m
    | .ok rs => .ok (r :: rs)

/-- Model of `TabularData::findRowOffsets` (TabularData.cpp:465-552), parameterised by
the worker count `N` (the compile-time `NUM_THREADS`, 4 in the source), the
expected column count (`this->colCount`) and the skip toggle
(`this->skipRows`). -/
def findRowOffsets (file : List Nat) (N : Nat) (expectedCols : Nat)
    (skip : Bool) : Except String RowOffsetsFS :=
  let fsize := file.length
  if fsize = 0 then .ok ⟨List.replicate N [], none, false, none⟩
  else
    let firstData := find_first_data_offset file
    if firstData ≥ fsize then .ok ⟨List.replicate N [], none, false, none⟩
    else
      let dataBytes := fsize - firstData
      let handoff : Nat → Nat := fun t =>
        if t = 0 then firstData
        else if t ≥ N then fsize
        else resync_to_next_row_start file (splitStart firstData dataBytes N t)
      let workers := (List.range N).map fun t =>
        parse_slice_to_file file (handoff t) (handoff (t + 1)) expectedCols skip
      match sequenceExcept workers with
      | .error m => .error m
      | .ok rs =>
        let parts := rs.map SliceRes.offsets
        .ok ⟨parts, some parts.flatten, true, some (rs.map SliceRes.rows).sum⟩

/-- Parser state of `TabularData::parseHeaderRow` (TabularData.cpp:120-182):
the scanner flags, the position counters and the records written so far to
`header_string_lookup_offsets.bin`.  Each record is the pair
`(fieldStart : u32, value : u16)` written by `close_field`
(TabularData.cpp:140-144). -/
structure HeaderSt where
  inQuotes : Bool
  atFieldStart : Bool
  pendingQuote : Bool
  headerDone : Bool
  pos : Nat
  fieldStart : Nat
  lastContent : Nat
  colCount : Nat
  records : List (Nat × Nat)
deriving DecidableEq, Repr

/-- Model of `close_field` (TabularData.cpp:140-144): append one header index record.
The second component is `lastContent` when the field saw content and the u32
value `fieldStart - 1` otherwise, truncated to u16 on write. -/
def close_field (st : HeaderSt) : HeaderSt :=
  let endVal := if st.fieldStart ≤ st.lastContent then st.lastContent
    else (st.fieldStart + 4294967295) % 4294967296
  { st with records := st.records ++ [(st.fieldStart % 4294967296, endVal % 65536)] }

/-- The not-in-quotes branch of the `parseHeaderRow` loop body
(TabularData.cpp:164-176), including the `atFieldStart` handling. -/
def hstepUnquoted (st : HeaderSt) (c : Nat) : HeaderSt :=
  if st.atFieldStart ∧ c = quoteB then
    { st with inQuotes := true, atFieldStart := false, fieldStart := st.pos + 1,
              pendingQuote := false, pos := st.pos + 1 }
  else
    let st := if st.atFieldStart then
        { st with atFieldStart := false, fieldStart := st.pos,
                  lastContent :=
                    if c ≠ commaB ∧ c ≠ crB ∧ c ≠ lfB then st.pos else st.lastContent }
      else st
    if c = commaB then
      let st := close_field st
      { st with atFieldStart := true, colCount := st.colCount + 1, pos := st.pos + 1 }
    else if c = lfB ∨ c = crB then
      let st := close_field st
      { st with headerDone := true, colCount := st.colCount + 1, pos := st.pos + 1 }
    else { st with lastContent := st.pos, pos := st.pos + 1 }

/-- One iteration of the `parseHeaderRow` byte loop (TabularData.cpp:154-177).
After `headerDone` the remaining bytes are ignored (the C++ loop exits).  The
C++ `--i; --pos; continue` reprocessing of a byte after a closing quote is
inlined as a direct call to `hstepUnquoted`. -/
def hstep (st : HeaderSt) (c : Nat) : HeaderSt :=
  if st.headerDone then st
  else if st.inQuotes then
    if st.pendingQuote then
      if c = quoteB then
        { st with lastContent := st.pos, pendingQuote := false, pos := st.pos + 1 }
      else hstepUnquoted { st with inQuotes := false, pendingQuote := false } c
    else if c = quoteB then { st with pendingQuote := true, pos := st.pos + 1 }
    else { st with lastContent := st.pos, pos := st.pos + 1 }
  else hstepUnquoted st c

def headerInit : HeaderSt :=
  { inQuotes := false, atFieldStart := true, pendingQuote := false,
    headerDone := false, pos := 0, fieldStart := 0, lastContent := 0,
    colCount := 0, records := [] }

/-- Model of `TabularData::parseHeaderRow` (TabularData.cpp:120-182): run the byte loop
over the whole file; at end of input, if the header row was not terminated and
a field is open, close it (TabularData.cpp:149-151, which does not touch
`colCount`). -/
def parseHeaderRow (file : List Nat) : HeaderSt :=
  let st := file.foldl hstep headerInit
  if st.headerDone then st
  else if ¬ st.atFieldStart then close_field st
  else st

/-- The records written to `header_string_lookup_offsets.bin`. -/
def parseHeaderRecords (file : List Nat) : List (Nat × Nat) :=
  (parseHeaderRow file).records

/-- The `this->colCount` member after `parseHeaderRow` (the value
`findRowOffsets` later uses as the expected column count). -/
def parseHeaderColCount (file : List Nat) : Nat :=
  (parseHeaderRow file).colCount

/-- Model of `TabularData::getColumnCount` (TabularData.cpp:235-242): size of the
header index file divided by the 6-byte record stride. -/
def getColumnCount (file : List Nat) : Nat :=
  6 * (parseHeaderRecords file).length / 6

/-- The merged `row_offsets.bin` contents produced by running
`parseHeaderRow` followed by `findRowOffsets` (the pipeline of
examples/main.cpp), `none` when the merged file is untouched or the build
aborts. -/
def mergedRowOffsets (file : List Nat) (N : Nat) (skip : Bool) : Option (List Nat) :=
  match findRowOffsets file N (parseHeaderColCount file) skip with
  | .ok r => r.merged
  | .error _ => none

/-- Collect every offset that immediately follows an unquoted row terminator
of the file, per the `feed_csv` scanner run from offset 0 (the header's
terminator and each data row's).  `fuel` bounds the remaining bytes exactly as
in `parse_slice_loop`. -/
def rowBoundariesLoop : Nat → List Nat → Nat → CsvState → List Nat
  | _, [], _, _ => []
  | 0, _ :: _, _, _ => []
  | fuel + 1, c :: rest, pos, st =>
    let r := feed_csv c st
    if r.2 then
      if c = crB ∧ rest.head? = some lfB then
        (pos + 2) :: rowBoundariesLoop fuel rest.tail (pos + 2) r.1
      else (pos + 1) :: rowBoundariesLoop fuel rest (pos + 1) r.1
    else rowBoundariesLoop fuel rest (pos + 1) r.1

/-- All row-terminator-following offsets of a file. -/
def rowBoundaries (file : List Nat) : List Nat :=
  rowBoundariesLoop file.length file 0 csvInit

/-! ### Header accessors: `readPair`, `unescapeCsvField`, `trim`, `getHeader` -/

/-- Predicate for `std::isspace` in the C locale on a byte: space, tab, LF,
vertical tab, form feed, CR. -/
def isSpB (c : Nat) : Bool :=
  c == 32 || c == 9 || c == 10 || c == 11 || c == 12 || c == 13

/-- Model of the first loop of `trim` (TabularData.cpp:60-63): the index of
the first non-space byte (the list length when all bytes are spaces). -/
def leadSpaces : List Nat → Nat
  | [] => 0
  | c :: rest => if isSpB c then leadSpaces rest + 1 else 0

/-- Model of the second loop of `trim` (TabularData.cpp:64-66): starting from
index `e`, decrement while above `start` and the preceding byte is a space. -/
def shrinkEnd (s : List Nat) (start : Nat) : Nat → Nat
  | 0 => 0
  | e + 1 => if start < e + 1 ∧ isSpB (s.getD e 0) then shrinkEnd s start e else e + 1

/-- Model of the file-static `trim` (TabularData.cpp:60-68): strip leading and
trailing ASCII whitespace via the two index loops and a substring. -/
def trim (s : List Nat) : List Nat :=
  let start := leadSpaces s
  let stop := shrinkEnd s start s.length
  (s.drop start).take (stop - start)

/-- Spec-side formulation of whitespace trimming ("trimming leading/trailing
ASCII whitespace"): drop spaces from the front, then from the back. -/
def trimSpec (s : List Nat) : List Nat :=
  ((s.dropWhile isSpB).reverse.dropWhile isSpB).reverse

/-- Model of `TabularData::unescapeCsvField` (TabularData.cpp:204-213):
replace every doubled quote by a single quote. -/
def unescapeCsvField : List Nat → List Nat
  | [] => []
  | [c] => [c]
  | c :: c2 :: rest =>
    if c = quoteB ∧ c2 = quoteB then quoteB :: unescapeCsvField rest
    else c :: unescapeCsvField (c2 :: rest)

/-- Model of `TabularData::readPair` (TabularData.cpp:186-202): read header
index record `colNum`; a read beyond the packed array fails. -/
def readPair (records : List (Nat × Nat)) (colNum : Nat) : Except String (Nat × Nat) :=
  match records.get? colNum with
  | some p => .ok p
  | none => .error "Column index out of range or corrupted index file"

/-- Model of `TabularData::getHeader` (TabularData.cpp:217-233): read record
`colNum`, return `[]` for the empty-field sentinel `end < start`, otherwise
read the `end - start + 1` source bytes at `start`, unescape and trim them. -/
def getHeader (file : List Nat) (records : List (Nat × Nat)) (colNum : Nat) :
    Except String (List Nat) :=
  match readPair records colNum with
  | .error m => .error m
  | .ok (start, stop) =>
    if stop < start then .ok []
    else
      let len := stop - start + 1
      if start + len ≤ file.length then
        .ok (trim (unescapeCsvField ((file.drop start).take len)))
      else .error "Failed to read header slice from CSV"

/-! ### The factorizer's bounded token reader `getTokens` -/

/-- The per-worker read buffer size `CHUNK_SIZE` (1 MiB). -/
def CHUNK_SIZE : Nat := 1048576

/-- Result of one `getTokens` call: the parsed tokens and the updated row
cursor `*currentRowByteOffset`. -/
structure TokRes where
  tokens : List (List Nat)
  cursor : Nat
deriving DecidableEq, Repr

/-- Model of the `push_token` lambda inside `getTokens`
(TabularData.cpp:589-597): slice `[s, e)` of the buffer (clamped to empty when
`e < s`), cheap-trimmed at both ends. -/
def push_token (buffer : List Nat) (s e : Nat) (tokens : List (List Nat)) :
    List (List Nat) :=
  let e := if e < s then s else e
  let tok := (buffer.drop s).take (e - s)
  tokens ++ [((tok.dropWhile isSpB).reverse.dropWhile isSpB).reverse]

/-- Outcome of processing one byte of `getTokens` in the unquoted context
(TabularData.cpp:612-631): either return from the call or continue with
updated flags. -/
inductive UnqStep
  | ret (r : TokRes)
  | cont (inQ : Bool) (tokenStart : Nat) (tokens : List (List Nat))

/-- The unquoted-context byte handling of the `getTokens` loop
(TabularData.cpp:612-631). -/
def getTokensUnq (buffer : List Nat) (startOff maxNeeded : Nat)
    (c : Nat) (rest : List Nat) (i tokenStart : Nat)
    (tokens : List (List Nat)) : UnqStep :=
  if c = quoteB then .cont true tokenStart tokens
  else if c = commaB then
    let tokens := push_token buffer tokenStart i tokens
    let tokenStart := i + 1
    if tokens.length = maxNeeded then .ret ⟨tokens, startOff + tokenStart⟩
    else .cont false tokenStart tokens
  else if c = lfB ∨ c = crB then
    let tokens := push_token buffer tokenStart i tokens
    let adv := if c = crB ∧ rest.head? = some lfB then i + 2 else i + 1
    .ret ⟨tokens, startOff + adv⟩
  else .cont false tokenStart tokens

/-- The byte loop of `getTokens` (TabularData.cpp:599-638), including the
fall-out-of-loop cursor update: past the last byte, the cursor advances to the
byte after the last completed comma when any token was pushed, else to the end
of the buffer.  The quote-state reprocessing `--i` is inlined via
`getTokensUnq`. -/
def getTokensLoop (buffer : List Nat) (startOff maxNeeded : Nat) :
    List Nat → Nat → Bool → Bool → Nat → List (List Nat) → TokRes
  | [], _, _, _, tokenStart, tokens =>
    if tokens ≠ [] then ⟨tokens, startOff + tokenStart⟩
    else ⟨tokens, startOff + buffer.length⟩
  | c :: rest, i, inQ, pend, tokenStart, tokens =>
    if inQ then
      if pend then
        if c = quoteB then
          getTokensLoop buffer startOff maxNeeded rest (i + 1) true false tokenStart tokens
        else
          match getTokensUnq buffer startOff maxNeeded c rest i tokenStart tokens with
          | .ret r => r
          | .cont inQ' ts' toks' =>
            getTokensLoop buffer startOff maxNeeded rest (i + 1) inQ' false ts' toks'
      else if c = quoteB then
        getTokensLoop buffer startOff maxNeeded rest (i + 1) true true tokenStart tokens
      else getTokensLoop buffer startOff maxNeeded rest (i + 1) true false tokenStart tokens
    else
      match getTokensUnq buffer startOff maxNeeded c rest i tokenStart tokens with
      | .ret r => r
      | .cont inQ' ts' toks' =>
        getTokensLoop buffer startOff maxNeeded rest (i + 1) inQ' false ts' toks'

/-- Model of `getTokens` (TabularData.cpp:569-639).  `maxTokensNeeded = 0`
models the C++ `maxTokensNeeded <= 0` guard.  When the buffered read returns
no bytes (cursor at or past end of file) the call returns no tokens and the
cursor is left unchanged (TabularData.cpp:583). -/
def getTokens (file : List Nat) (cursor : Nat) (maxTokensNeeded : Nat) : TokRes :=
  if maxTokensNeeded = 0 then ⟨[], cursor⟩
  else
    let buffer := (file.drop cursor).take CHUNK_SIZE
    if buffer.length = 0 then ⟨[], cursor⟩
    else getTokensLoop buffer cursor maxTokensNeeded buffer 0 false false 0 []

/-- One iteration of the per-row `while (currentCol < endingCol)` loop of
`processColumnChunkMap` (TabularData.cpp:654-679) acting on the pair
(row cursor, currentCol): call `getTokens` for the still-missing columns; an
empty token list means `continue`; otherwise `currentCol` advances by one per
token, capped at `endingCol`. -/
def rowLoopStep (file : List Nat) (startingCol endingCol : Nat)
    (s : Nat × Nat) : Nat × Nat :=
  let r := getTokens file s.1 (endingCol - s.2)
  if r.tokens = [] then (r.cursor, s.2)
  else (r.cursor, min endingCol (s.2 + r.tokens.length))

/-! ### Thread-local and global dictionaries of the column factorizer

Tokens are byte lists; `std::map<std::string,int>` is modelled as an
association list kept sorted by byte-wise lexicographic key order, which is
exactly the `std::map` iteration order used by the merge loop. -/

/-- Byte-wise lexicographic strict order on byte lists (the
`std::string` `operator<`). -/
def lexLt : List Nat → List Nat → Bool
  | [], [] => false
  | [], _ :: _ => true
  | _ :: _, [] => false
  | a :: as, b :: bs => if a < b then true else if a = b then lexLt as bs else false

/-- Dictionary representation: entries sorted by `lexLt` on the keys. -/
abbrev SMap := List (List Nat × Nat)

/-- Lookup in a dictionary (`std::map::find`). -/
def mapFind : SMap → List Nat → Option Nat
  | [], _ => none
  | (k, v) :: rest, q => if q = k then some v else mapFind rest q

/-- Keyed insertion keeping the entry list sorted (`std::map::emplace` of a
key not yet present). -/
def smapInsert : SMap → List Nat → Nat → SMap
  | [], k, v => [(k, v)]
  | (k', v') :: rest, k, v =>
    if lexLt k k' then (k, v) :: (k', v') :: rest
    else (k', v') :: smapInsert rest k v

/-- One token arriving at a thread-local dictionary
(TabularData.cpp:668-674): a new token gets the next dense local id
`mp.size()`. -/
def localDictStep (m : SMap) (tok : List Nat) : SMap :=
  match mapFind m tok with
  | some _ => m
  | none => smapInsert m tok m.length

/-- The thread-local dictionary after a thread has processed its token
sequence for one column, in encounter order. -/
def buildLocalDict (toks : List (List Nat)) : SMap :=
  toks.foldl localDictStep []

/-- One key arriving at the global dictionary (TabularData.cpp:695-699): a
token not already present gets the next dense global id `g.size()`. -/
def globalMergeStep (g : SMap) (k : List Nat) : SMap :=
  match mapFind g k with
  | some _ => g
  | none => smapInsert g k g.length

/-- The global-dictionary build of `processColumnChunk`
(TabularData.cpp:692-701) for one column: fold the thread-local dictionaries
in thread-index order, iterating each dictionary in its `std::map` entry
order. -/
def mergeGlobalDict (locals : List SMap) : SMap :=
  locals.foldl (fun g m => m.foldl (fun g kv => globalMergeStep g kv.1) g) []

/-- Global codes for one column as a function of each thread's token sequence
(thread index order). -/
def globalCodes (threadTokens : List (List (List Nat))) : SMap :=
  mergeGlobalDict (threadTokens.map buildLocalDict)

/-- One token arriving at a first-seen distinct-token list. -/
def dedupStep (d : List (List Nat)) (k : List Nat) : List (List Nat) :=
  if k ∈ d then d else d ++ [k]

/-- The distinct tokens of a sequence in first-seen order. -/
def dedupFirstSeen (toks : List (List Nat)) : List (List Nat) :=
  toks.foldl dedupStep []

/-- Spec-side definition following the claim's words: iterate threads in
ascending index order and each thread's tokens in insertion (first-seen)
order, appending each token not already present with the next dense global
id. -/
def specInsertionDict (threadTokens : List (List (List Nat))) : List (List Nat × Nat) :=
  threadTokens.foldl
    (fun g toks =>
      (dedupFirstSeen toks).foldl
        (fun g k =>
          match mapFind g k with
          | some _ => g
          | none => g ++ [(k, g.length)]) g) []

/-- Insertion of a key into a sorted key list. -/
def sortedInsertKey (k : List Nat) : List (List Nat) → List (List Nat)
  | [] => [k]
  | k' :: rest => if lexLt k k' then k :: k' :: rest else k' :: sortedInsertKey k rest

/-- Sorting a key list by repeated sorted insertion. -/
def sortLex (l : List (List Nat)) : List (List Nat) :=
  l.foldl (fun acc k => sortedInsertKey k acc) []

/-- Spec-side definition following the amended claim's words: iterate threads
in ascending index order and each thread's distinct tokens in ascending
byte-wise lexicographic order, assigning the next dense global id to each
token not already present. -/
def specSortedDict (threadTokens : List (List (List Nat))) : SMap :=
  threadTokens.foldl
    (fun g toks => (sortLex (dedupFirstSeen toks)).foldl globalMergeStep g) []

/-! ### Reference layout of a well-formed header row (for the header-index
record claims) -/

/-- A header field: either unquoted raw content, or a quoted field whose
content is written with doubled-quote escapes. -/
inductive HField
  | unq (content : List Nat)
  | qtd (content : List Nat)
deriving DecidableEq, Repr

/-- Escape field content for inclusion between quotes: double every quote. -/
def escQ : List Nat → List Nat
  | [] => []
  | c :: rest => if c = quoteB then quoteB :: quoteB :: escQ rest else c :: escQ rest

/-- The raw bytes of one rendered field. -/
def renderField : HField → List Nat
  | .unq c => c
  | .qtd c => quoteB :: (escQ c ++ [quoteB])

/-- Byte count of the field's content slice as stored in the source file
(between the delimiters, excluding the surrounding quotes of a quoted field
but including the doubled escape quotes). -/
def contentLen : HField → Nat
  | .unq c => c.length
  | .qtd c => (escQ c).length

/-- Absolute offset of the first content byte of a field rendered at
offset `p` (skipping the opening quote of a quoted field). -/
def contentStart (p : Nat) : HField → Nat
  | .unq _ => p
  | .qtd _ => p + 1

/-- Well-formedness: unquoted content contains no delimiter, quote or row
terminator bytes; quoted content is arbitrary (escaping handles quotes). -/
def wfField : HField → Prop
  | .unq c => ∀ b ∈ c, b ≠ commaB ∧ b ≠ quoteB ∧ b ≠ crB ∧ b ≠ lfB
  | .qtd _ => True

/-- Render a comma-separated header row (without the row terminator). -/
def renderRow : List HField → List Nat
  | [] => []
  | [f] => renderField f
  | f :: fs => renderField f ++ commaB :: renderRow fs

/-- The header-index records the spec's data model assigns to a well-formed
header row rendered at offset `p`: per field, the content start offset and
the offset of the last content byte (`start - 1` for empty content). -/
def refRecords (p : Nat) : List HField → List (Nat × Nat)
  | [] => []
  | f :: fs =>
    let s := contentStart p f
    let l := contentLen f
    (s, if l = 0 then s - 1 else s + l - 1) ::
      refRecords (p + (renderField f).length + 1) fs

/-- The header-index records `parseHeaderRow` actually writes for a rendered
row at offset `p`, with the `u32`/`u16` write truncations explicit: the
second component is the last-content-byte offset for non-empty content and
the u32 value `start - 1` for empty content. -/
def rawRecords (p : Nat) : List HField → List (Nat × Nat)
  | [] => []
  | f :: fs =>
    (contentStart p f % 4294967296,
      (if contentLen f = 0 then (contentStart p f + 4294967295) % 4294967296
        else contentStart p f + contentLen f - 1) % 65536) ::
      rawRecords (p + (renderField f).length + 1) fs

instance wfFieldDecidable : (f : HField) → Decidable (wfField f)
  | .unq c => inferInstanceAs
      (Decidable (∀ b ∈ c, b ≠ commaB ∧ b ≠ quoteB ∧ b ≠ crB ∧ b ≠ lfB))
  | .qtd _ => inferInstanceAs (Decidable True)

/-! ### Concrete input files used by the claim theorems -/

/-- The CRLF scenario input of the spec, `x,y\r\n10,20\r\n30,40`. -/
def crlfCsv : List Nat :=
  [120, 44, 121, 13, 10, 49, 48, 44, 50, 48, 13, 10, 51, 48, 44, 52, 48]

/-- A CSV whose first data row holds a quoted field containing a row
terminator: `h,i\n"aaaaaaaaaaa\nb",c\nd,e\n` (the 11 `a`s place the
two-worker nominal split inside the quoted field, before its embedded
newline). -/
def embeddedNewlineCsv : List Nat :=
  [104, 44, 105, 10, 34] ++ List.replicate 11 97 ++
    [10, 98, 34, 44, 99, 10, 100, 44, 101, 10]

/-- A one-column CSV with a quoted newline, `h\n"aaaa\nb"\ncc\n`: with three
workers the second nominal split lands inside the quoted field before its
embedded newline. -/
def quotedNewlineCsv : List Nat :=
  [104, 10, 34, 97, 97, 97, 97, 10, 98, 34, 10, 99, 99, 10]

/-- A CSV whose last data row has no trailing newline: `h1,h2\n1,2`. -/
def noTrailingNewlineCsv : List Nat :=
  [104, 49, 44, 104, 50, 10, 49, 44, 50]

/-- A two-column CSV whose data row starts with a quoted field, `a,b\n"x",y\n`. -/
def quotedFieldRowCsv : List Nat :=
  [97, 44, 98, 10, 34, 120, 34, 44, 121, 10]

/-- Reference count of the unquoted (field-separating) commas of a byte
sequence, judged by the scanner itself: a comma is unquoted when `feed_csv`
processes it outside quotes, which includes the comma that resolves a
pending closing quote and ends a quoted field. -/
def unquotedCommaCount : List Nat → CsvState → Nat
  | [], _ => 0
  | c :: rest, st =>
    let r := feed_csv c st
    (if c = commaB ∧ r.1.inQuotes = false then 1 else 0) +
      unquotedCommaCount rest r.1

/-! ### Walk lemmas for the header-row state machine (C2) -/

/-- Once the header row is done, further bytes do not change the state. -/
theorem hstep_done (st : HeaderSt) (hdone : st.headerDone = true) :
    ∀ l : List Nat, l.foldl hstep st = st
  | [] => rfl
  | c :: l => by
    have h1 : hstep st c = st := by simp [hstep, hdone]
    rw [List.foldl_cons, h1, hstep_done st hdone l]

/-- Walking plain unquoted content bytes from inside a field: each byte only
advances `pos` and refreshes `lastContent`. -/
theorem hstep_ucontent_walk (w : List Nat)
    (hw : ∀ b ∈ w, b ≠ commaB ∧ b ≠ quoteB ∧ b ≠ crB ∧ b ≠ lfB) :
    ∀ (p F L n : Nat) (R : List (Nat × Nat)),
      w.foldl hstep ⟨false, false, false, false, p, F, L, n, R⟩ =
        ⟨false, false, false, false, p + w.length, F,
          if w.length = 0 then L else p + w.length - 1, n, R⟩ := by
  induction w with
  | nil => intro p F L n R; simp
  | cons c w ih =>
    intro p F L n R
    have hc := hw c (List.mem_cons_self c w)
    have h1 : hstep ⟨false, false, false, false, p, F, L, n, R⟩ c =
        ⟨false, false, false, false, p + 1, F, p, n, R⟩ := by
      simp [hstep, hstepUnquoted, hc.1, hc.2.1, hc.2.2.1, hc.2.2.2]
    rw [List.foldl_cons, h1, ih (fun b hb => hw b (List.mem_cons_of_mem c hb))]
    by_cases hw0 : w.length = 0 <;> simp [hw0, HeaderSt.mk.injEq] <;> omega

/-- Walking escaped quoted content from inside the quotes: every content
char (one byte, or two for an escaped quote) ends as content. -/
theorem hstep_qcontent_walk (w : List Nat) :
    ∀ (p F L n : Nat) (R : List (Nat × Nat)),
      (escQ w).foldl hstep ⟨true, false, false, false, p, F, L, n, R⟩ =
        ⟨true, false, false, false, p + (escQ w).length, F,
          if (escQ w).length = 0 then L else p + (escQ w).length - 1, n, R⟩ := by
  induction w with
  | nil => intro p F L n R; simp [escQ]
  | cons c w ih =>
    intro p F L n R
    by_cases hc : c = quoteB
    · have h1 : hstep ⟨true, false, false, false, p, F, L, n, R⟩ quoteB =
          ⟨true, false, true, false, p + 1, F, L, n, R⟩ := by
        simp [hstep]
      have h2 : hstep ⟨true, false, true, false, p + 1, F, L, n, R⟩ quoteB =
          ⟨true, false, false, false, p + 2, F, p + 1, n, R⟩ := by
        simp [hstep]
      rw [escQ, if_pos hc, List.foldl_cons, List.foldl_cons, h1, h2, ih]
      by_cases hw0 : (escQ w).length = 0 <;> simp [hw0, HeaderSt.mk.injEq] <;> omega
    · have h1 : hstep ⟨true, false, false, false, p, F, L, n, R⟩ c =
          ⟨true, false, false, false, p + 1, F, p, n, R⟩ := by
        simp [hstep, hc]
      rw [escQ, if_neg hc, List.foldl_cons, h1, ih]
      by_cases hw0 : (escQ w).length = 0 <;> simp [hw0, HeaderSt.mk.injEq] <;> omega

/-- Closing a field at a delimiter from an in-field unquoted state. -/
theorem hstep_delim_infield (d : Nat) (hd : d = commaB ∨ d = lfB)
    (q F LC n : Nat) (R : List (Nat × Nat)) :
    hstep ⟨false, false, false, false, q, F, LC, n, R⟩ d =
      ⟨false, decide (d = commaB), false, decide (d ≠ commaB), q + 1, F, LC, n + 1,
        R ++ [(F % 4294967296,
          (if F ≤ LC then LC else (F + 4294967295) % 4294967296) % 65536)]⟩ := by
  rcases hd with rfl | rfl <;> simp [hstep, hstepUnquoted, close_field, commaB, lfB, quoteB, crB]

/-- Closing a field at a delimiter straight from the field-start state (an
empty unquoted field). -/
theorem hstep_delim_fieldstart (d : Nat) (hd : d = commaB ∨ d = lfB)
    (q F0 LC n : Nat) (R : List (Nat × Nat)) :
    hstep ⟨false, true, false, false, q, F0, LC, n, R⟩ d =
      ⟨false, decide (d = commaB), false, decide (d ≠ commaB), q + 1, q, LC, n + 1,
        R ++ [(q % 4294967296,
          (if q ≤ LC then LC else (q + 4294967295) % 4294967296) % 65536)]⟩ := by
  rcases hd with rfl | rfl <;> simp [hstep, hstepUnquoted, close_field, commaB, lfB, quoteB, crB]

/-- Closing a field at a delimiter from the pending-quote state (the byte
after a closing quote): the scanner leaves quotes and reprocesses the
delimiter unquoted. -/
theorem hstep_delim_pending (d : Nat) (hd : d = commaB ∨ d = lfB)
    (q F LC n : Nat) (R : List (Nat × Nat)) :
    hstep ⟨true, false, true, false, q, F, LC, n, R⟩ d =
      ⟨false, decide (d = commaB), false, decide (d ≠ commaB), q + 1, F, LC, n + 1,
        R ++ [(F % 4294967296,
          (if F ≤ LC then LC else (F + 4294967295) % 4294967296) % 65536)]⟩ := by
  rcases hd with rfl | rfl <;> simp [hstep, hstepUnquoted, close_field, commaB, lfB, quoteB, crB]

/-- Processing one rendered field followed by a delimiter (comma or LF) from
a field-start state: exactly one record is written — content start paired
with the last content offset, or the u32 `start - 1` sentinel for empty
content — the column count increments, and scanning resumes after the
delimiter (at field start after a comma; header done after a LF). -/
theorem hstep_field_walk (f : HField) (hwf : wfField f) (d : Nat)
    (hd : d = commaB ∨ d = lfB) (p F0 L n : Nat) (R : List (Nat × Nat))
    (hL : L < p ∨ (p = 0 ∧ L = 0 ∧ f ≠ .unq [])) :
    (renderField f ++ [d]).foldl hstep ⟨false, true, false, false, p, F0, L, n, R⟩ =
      ⟨false, decide (d = commaB), false, decide (d ≠ commaB),
        p + (renderField f).length + 1, contentStart p f,
        if contentLen f = 0 then L else contentStart p f + contentLen f - 1,
        n + 1,
        R ++ [(contentStart p f % 4294967296,
          (if contentLen f = 0 then (contentStart p f + 4294967295) % 4294967296
            else contentStart p f + contentLen f - 1) % 65536)]⟩ := by
  match f with
  | .unq [] =>
    have hLp : L < p := by
      rcases hL with h | ⟨_, _, h⟩
      · exact h
      · exact absurd rfl h
    have hnot : ¬ p ≤ L := by omega
    simp only [renderField, List.nil_append, List.foldl_cons, List.foldl_nil]
    rw [hstep_delim_fieldstart d hd]
    simp [contentStart, contentLen, hnot]
  | .unq (c :: w) =>
    have hc := hwf c (List.mem_cons_self c w)
    have h1 : hstep ⟨false, true, false, false, p, F0, L, n, R⟩ c =
        ⟨false, false, false, false, p + 1, p, p, n, R⟩ := by
      simp [hstep, hstepUnquoted, hc.1, hc.2.1, hc.2.2.1, hc.2.2.2]
    have hwrest : ∀ b ∈ w, b ≠ commaB ∧ b ≠ quoteB ∧ b ≠ crB ∧ b ≠ lfB :=
      fun b hb => hwf b (List.mem_cons_of_mem c hb)
    have h2 := hstep_ucontent_walk w hwrest (p + 1) p p n R
    simp only [renderField, List.cons_append, List.foldl_cons, List.foldl_append,
      List.foldl_nil, h1, h2]
    have hle : p ≤ (if w.length = 0 then p else p + 1 + w.length - 1) := by
      by_cases h0 : w.length = 0 <;> simp [h0] <;> omega
    rw [hstep_delim_infield d hd, if_pos hle]
    by_cases h0 : w.length = 0 <;>
      simp [h0, contentStart, contentLen, HeaderSt.mk.injEq] <;> omega
  | .qtd w =>
    have hLp1 : L < p + 1 := by
      rcases hL with h | ⟨hp, hL0, _⟩
      · omega
      · omega
    have h1 : hstep ⟨false, true, false, false, p, F0, L, n, R⟩ quoteB =
        ⟨true, false, false, false, p + 1, p + 1, L, n, R⟩ := by
      simp [hstep, hstepUnquoted]
    have h2 := hstep_qcontent_walk w (p + 1) (p + 1) L n R
    have h3 : hstep ⟨true, false, false, false, p + 1 + (escQ w).length, p + 1,
        (if (escQ w).length = 0 then L else p + 1 + (escQ w).length - 1), n, R⟩ quoteB =
        ⟨true, false, true, false, p + 1 + (escQ w).length + 1, p + 1,
          (if (escQ w).length = 0 then L else p + 1 + (escQ w).length - 1), n, R⟩ := by
      simp [hstep]
    simp only [renderField, List.cons_append, List.append_assoc, List.foldl_cons,
      List.foldl_append, List.foldl_nil, h1, h2, h3]
    rw [hstep_delim_pending d hd]
    by_cases h0 : (escQ w).length = 0
    · have hnot : ¬ p + 1 ≤ L := by omega
      simp [h0, hnot, contentStart, contentLen, HeaderSt.mk.injEq, renderField] <;> omega
    · have h1le : 1 ≤ (escQ w).length := by omega
      have hle : p + 1 ≤ p + 1 + (escQ w).length - 1 := by omega
      simp [h0, h1le, hle, contentStart, contentLen, HeaderSt.mk.injEq, renderField] <;>
        omega

/-- Content start plus content length never passes the rendered field. -/
theorem contentStart_add_len_le (p : Nat) (f : HField) :
    contentStart p f + contentLen f ≤ p + (renderField f).length := by
  cases f <;> simp [contentStart, contentLen, renderField] <;> omega

theorem renderRow_cons_length (f : HField) (fs : List HField) :
    (renderRow (f :: fs)).length =
      (renderField f).length + (if fs = [] then 0 else (renderRow fs).length + 1) := by
  cases fs <;> simp [renderRow]

/-- Walking a whole rendered header row terminated by a LF (with arbitrary
following bytes): each field contributes its record, the column count grows
by the field count, and the header is done at the terminator. -/
theorem hstep_row_walk :
    ∀ (fs : List HField), fs ≠ [] → (∀ f ∈ fs, wfField f) →
      ∀ (p F0 L n : Nat) (R : List (Nat × Nat)) (tail : List Nat),
        (L < p ∨ (p = 0 ∧ L = 0 ∧ fs.head? ≠ some (.unq []))) →
        ∃ F1 L1,
          (renderRow fs ++ lfB :: tail).foldl hstep
              ⟨false, true, false, false, p, F0, L, n, R⟩ =
            ⟨false, false, false, true, p + (renderRow fs).length + 1, F1, L1,
              n + fs.length, R ++ rawRecords p fs⟩
  | [], hne, _, _, _, _, _, _, _, _ => absurd rfl hne
  | [f], _, hwf, p, F0, L, n, R, tail, hL => by
    have hLf : L < p ∨ (p = 0 ∧ L = 0 ∧ f ≠ .unq []) := by
      rcases hL with h | ⟨hp, hL0, hh⟩
      · exact Or.inl h
      · refine Or.inr ⟨hp, hL0, fun hf => hh ?_⟩
        rw [hf]; rfl
    have hlist : renderRow [f] ++ lfB :: tail = (renderField f ++ [lfB]) ++ tail := by
      simp [renderRow]
    rw [hlist, List.foldl_append,
      hstep_field_walk f (hwf f (List.mem_cons_self f [])) lfB (Or.inr rfl) p F0 L n R hLf]
    refine ⟨contentStart p f,
      if contentLen f = 0 then L else contentStart p f + contentLen f - 1, ?_⟩
    rw [hstep_done _ (by simp [lfB, commaB]) tail]
    simp [rawRecords, renderRow, lfB, commaB, rawRecords]
  | f :: g :: fs, _, hwf, p, F0, L, n, R, tail, hL => by
    have hLf : L < p ∨ (p = 0 ∧ L = 0 ∧ f ≠ .unq []) := by
      rcases hL with h | ⟨hp, hL0, hh⟩
      · exact Or.inl h
      · refine Or.inr ⟨hp, hL0, fun hf => hh ?_⟩
        rw [hf]; rfl
    have hlist : renderRow (f :: g :: fs) ++ lfB :: tail =
        (renderField f ++ [commaB]) ++ (renderRow (g :: fs) ++ lfB :: tail) := by
      simp [renderRow]
    rw [hlist, List.foldl_append,
      hstep_field_walk f (hwf f (List.mem_cons_self f _)) commaB (Or.inl rfl) p F0 L n R hLf]
    have hcs := contentStart_add_len_le p f
    have hnext : (if contentLen f = 0 then L else contentStart p f + contentLen f - 1)
        < p + (renderField f).length + 1 := by
      rcases hL with h | ⟨hp, hL0, _⟩
      · by_cases h0 : contentLen f = 0 <;> simp [h0] <;> omega
      · by_cases h0 : contentLen f = 0 <;> simp [h0] <;> omega
    obtain ⟨F1, L1, ih⟩ := hstep_row_walk (g :: fs) (by simp)
      (fun x hx => hwf x (List.mem_cons_of_mem f hx))
      (p + (renderField f).length + 1) (contentStart p f)
      (if contentLen f = 0 then L else contentStart p f + contentLen f - 1)
      (n + 1) (R ++ [(contentStart p f % 4294967296,
        (if contentLen f = 0 then (contentStart p f + 4294967295) % 4294967296
          else contentStart p f + contentLen f - 1) % 65536)]) tail (Or.inl hnext)
    refine ⟨F1, L1, ?_⟩
    rw [show (decide (commaB = commaB)) = true by simp,
      show (decide (commaB ≠ commaB)) = false by simp]
    rw [ih]
    have hrr : (renderRow (f :: g :: fs)).length
        = (renderField f).length + ((renderRow (g :: fs)).length + 1) := by
      rw [renderRow_cons_length]; simp
    simp [HeaderSt.mk.injEq, hrr, rawRecords, List.append_assoc] <;> omega

/-- The records actually written coincide with the reference records when the
row fits the u32/u16 schema and an empty unquoted first field is excluded. -/
theorem rawRecords_eq_refRecords :
    ∀ (fs : List HField) (p : Nat),
      ((fs.head? = some (.unq [])) → 1 ≤ p) →
      p + (renderRow fs).length ≤ 65535 →
      rawRecords p fs = refRecords p fs
  | [], _, _, _ => rfl
  | f :: fs, p, hfe, hlen => by
    have hcs := contentStart_add_len_le p f
    have hwidth : (renderField f).length ≤ (renderRow (f :: fs)).length := by
      rw [renderRow_cons_length]
      by_cases h0 : fs = [] <;> simp [h0]
    have hs1 : contentLen f = 0 → 1 ≤ contentStart p f := by
      intro h0
      match f with
      | .unq [] => exact Nat.le_trans (hfe rfl) (by simp [contentStart])
      | .unq (c :: w) => simp [contentLen] at h0
      | .qtd w => simp [contentStart]
    rw [rawRecords, refRecords]
    congr 1
    · have hsmall : contentStart p f + contentLen f ≤ 65535 := by omega
      by_cases h0 : contentLen f = 0
      · have h1 := hs1 h0
        rw [if_pos h0, if_pos h0]
        simp only [Prod.mk.injEq]
        exact ⟨by omega, by omega⟩
      · rw [if_neg h0, if_neg h0]
        simp only [Prod.mk.injEq]
        exact ⟨by omega, by omega⟩
    · rcases fs with _ | ⟨g, fs⟩
      · rfl
      · refine rawRecords_eq_refRecords (g :: fs) (p + (renderField f).length + 1)
          (fun _ => by omega) ?_
        rw [renderRow_cons_length] at hlen
        simp only [if_neg (by simp : ¬ (g :: fs) = [])] at hlen
        omega

/-- C2 amended: for every column of a well-formed newline-terminated header
row (first field not an empty unquoted field, row within the u16 range), the
second field of its header index record is the byte offset of the field's
last content byte — `start + length - 1` for non-empty content and
`start - 1` for an empty field — not the content byte count; the content
byte count is recoverable as `end - start + 1`.  The recorded column count
equals the field count. -/
theorem c2_header_records_store_end_offsets (fields : List HField) (rest : List Nat)
    (hne : fields ≠ []) (hwf : ∀ f ∈ fields, wfField f)
    (hfirst : fields.head? ≠ some (.unq []))
    (hlen : (renderRow fields).length ≤ 65535) :
    parseHeaderRecords (renderRow fields ++ lfB :: rest) = refRecords 0 fields ∧
    parseHeaderColCount (renderRow fields ++ lfB :: rest) = fields.length := by
  obtain ⟨F1, L1, hrun⟩ := hstep_row_walk fields hne hwf 0 0 0 0 [] rest
    (Or.inr ⟨rfl, rfl, hfirst⟩)
  have hph : parseHeaderRow (renderRow fields ++ lfB :: rest) =
      ⟨false, false, false, true, 0 + (renderRow fields).length + 1, F1, L1,
        0 + fields.length, [] ++ rawRecords 0 fields⟩ := by
    unfold parseHeaderRow
    rw [show headerInit = (⟨false, true, false, false, 0, 0, 0, 0, []⟩ : HeaderSt) from rfl,
      hrun]
    simp
  constructor
  · show (parseHeaderRow _).records = _
    rw [hph]
    simp only [List.nil_append]
    exact rawRecords_eq_refRecords fields 0 (fun h => absurd h hfirst) (by omega)
  · show (parseHeaderRow _).colCount = _
    rw [hph]
    simp

/-- Witness for C2: the header row `"a",bc` — a quoted field and an unquoted
field. -/
theorem c2_witness :
    parseHeaderRecords (renderRow [HField.qtd [97], HField.unq [98, 99]] ++ lfB :: []) =
      refRecords 0 [HField.qtd [97], HField.unq [98, 99]] ∧
    parseHeaderColCount (renderRow [HField.qtd [97], HField.unq [98, 99]] ++ lfB :: []) =
      2 :=
  c2_header_records_store_end_offsets [HField.qtd [97], HField.unq [98, 99]] []
    (by decide) (by decide) (by decide) (by decide)

/-! ### Claim theorems -/

/-- C1: the claim states that for every input file and every worker count
`N ≥ 1` the merged row-offset file is byte-identical to the `N = 1` build,
and that `resync_to_next_row_start` always returns a true row boundary.  The
code violates this: on `embeddedNewlineCsv` the two-worker nominal split
`S[1] = 15` lands inside the quoted field before its embedded newline, resync
returns offset 17 (which is inside the quoted field, not a row boundary),
worker 1 then parses from mid-field and mis-counts every remaining row, and
the merged output is empty while the single-worker build emits offset 22. -/
theorem c1_slice_dependence_on_worker_count :
    mergedRowOffsets embeddedNewlineCsv 1 true = some [22] ∧
    mergedRowOffsets embeddedNewlineCsv 2 true = some [] ∧
    mergedRowOffsets embeddedNewlineCsv 2 true ≠ mergedRowOffsets embeddedNewlineCsv 1 true ∧
    resync_to_next_row_start embeddedNewlineCsv 15 = 17 ∧
    17 ∉ rowBoundaries embeddedNewlineCsv := by decide

/-- C5 counterexample: on `x,y\r\n10,20\r\n30,40` the row-offset builder (with
the source's 4 workers, and with 1) does not produce the offsets `[4, 11]`
stated by the claim. -/
theorem c5_counterexample_crlf_offsets :
    mergedRowOffsets crlfCsv 4 true ≠ some [4, 11] ∧
    mergedRowOffsets crlfCsv 1 true ≠ some [4, 11] := by decide

/-- C5 amended: on `x,y\r\n10,20\r\n30,40` the builder produces exactly two
row offsets, 5 and 11+1=12 — the first data row starts at offset 5 (after the
header's CRLF at offsets 3-4) and the second at offset 12, the trailing
newline-less row included. -/
theorem c5_crlf_trailing_row_offsets :
    mergedRowOffsets crlfCsv 4 true = some [5, 12] ∧
    mergedRowOffsets crlfCsv 1 true = some [5, 12] ∧
    find_first_data_offset crlfCsv = 5 := by decide

/-- C6: the claim states that for every input every merged row-offset entry
immediately follows a row terminator.  On `quotedNewlineCsv` with three
workers the merged file is `[2, 8]`, and entry 8 follows the newline embedded
inside the quoted field — not a row terminator (the terminator-following
offsets of this file are 2, 11 and 14), and the true second row start 11 of
the single-worker build is lost. -/
theorem c6_merged_entry_not_row_boundary :
    mergedRowOffsets quotedNewlineCsv 3 true = some [2, 8] ∧
    8 ∈ (mergedRowOffsets quotedNewlineCsv 3 true).getD [] ∧
    rowBoundaries quotedNewlineCsv = [2, 11, 14] ∧
    8 ∉ rowBoundaries quotedNewlineCsv ∧
    mergedRowOffsets quotedNewlineCsv 1 true = some [2, 11] := by decide

/-- C8: the claim states that every `getTokens` call returning fewer tokens
than needed strictly advances the row cursor.  Factorizing the (valid,
width-matching) final row `1,2` of `noTrailingNewlineCsv`: from the row start
(cursor 6, column 0) two iterations of the per-row loop reach cursor 9 (end of
file) with one column still missing, and from there `getTokens` returns no
tokens without advancing the cursor, so the loop state is a fixpoint and the
`while (currentCol < endingCol)` loop never terminates. -/
theorem c8_get_tokens_stuck_at_eof :
    mergedRowOffsets noTrailingNewlineCsv 4 true = some [6] ∧
    (rowLoopStep noTrailingNewlineCsv 0 2)^[2] (6, 0) = (9, 1) ∧
    (getTokens noTrailingNewlineCsv 9 1).tokens.length = 0 ∧
    (getTokens noTrailingNewlineCsv 9 1).cursor = 9 ∧
    1 < 2 ∧
    ∀ k : Nat, (rowLoopStep noTrailingNewlineCsv 0 2)^[k] (9, 1) = (9, 1) := by
  refine ⟨by decide, by decide, by decide, by decide, by decide, fun k =>
    Function.iterate_fixed (by decide) k⟩

/-- C9: the claim states that after `parseHeaderRow` the recorded column
count equals the number of records written, also when the header row ends at
end-of-file with no trailing newline.  On the file `a,b` the open field `b` is
closed at EOF — a second record is written — but the EOF path does not
increment `colCount`, so `colCount = 1` while two records exist. -/
theorem c9_eof_header_field_closed_not_counted :
    parseHeaderColCount [97, 44, 98] = 1 ∧
    (parseHeaderRecords [97, 44, 98]).length = 2 ∧
    getColumnCount [97, 44, 98] = 2 ∧
    (1 : Nat) ≠ 2 := by decide

/-- C2 counterexample: for the header row `ab,c` (rendered with a trailing
newline) the first field's content is 2 bytes, but the second component of its
header index record is 1 — the offset of the field's last content byte, not
the byte count. -/
theorem c2_counterexample_end_offset_not_length :
    parseHeaderRecords (renderRow [HField.unq [97, 98], HField.unq [99]] ++ [lfB]) =
      [(0, 1), (3, 3)] ∧
    contentLen (HField.unq [97, 98]) = 2 ∧
    (1 : Nat) ≠ 2 := by decide

/-- C3 counterexample: one thread sees token `b` (byte 98) before token `a`
(byte 97).  The claim's insertion-order merge would assign `b ↦ 0, a ↦ 1`,
but the code iterates the thread-local `std::map` in lexicographic key order
and assigns `a ↦ 0, b ↦ 1`. -/
theorem c3_counterexample_map_iteration_not_insertion_order :
    mapFind (globalCodes [[[98], [97]]]) [97] = some 0 ∧
    mapFind (specInsertionDict [[[98], [97]]]) [97] = some 1 ∧
    globalCodes [[[98], [97]]] ≠ specInsertionDict [[[98], [97]]] := by decide

/-! ### Lemmas relating the index-loop `trim` to dropWhile trimming (C7) -/

theorem dropWhile_eq_drop_len (p : Nat → Bool) :
    ∀ l : List Nat, l.dropWhile p = l.drop (l.takeWhile p).length
  | [] => rfl
  | c :: rest => by
    by_cases h : p c
    · simp [List.dropWhile_cons, List.takeWhile_cons, h, dropWhile_eq_drop_len p rest]
    · simp [List.dropWhile_cons, List.takeWhile_cons, h]

theorem leadSpaces_eq_takeWhile_length :
    ∀ s : List Nat, leadSpaces s = (s.takeWhile isSpB).length
  | [] => rfl
  | c :: rest => by
    by_cases h : isSpB c
    · simp [leadSpaces, List.takeWhile_cons, h, leadSpaces_eq_takeWhile_length rest]
    · simp [leadSpaces, List.takeWhile_cons, h]

theorem drop_leadSpaces (s : List Nat) :
    s.drop (leadSpaces s) = s.dropWhile isSpB := by
  rw [leadSpaces_eq_takeWhile_length, ← dropWhile_eq_drop_len]

theorem leadSpaces_le_length (s : List Nat) : leadSpaces s ≤ s.length := by
  have h := congrArg List.length (List.takeWhile_append_dropWhile isSpB s)
  rw [leadSpaces_eq_takeWhile_length]
  simp only [List.length_append] at h
  omega

theorem takeWhile_reverse_append_length (p : Nat → Bool) (l : List Nat) (x : Nat) :
    ((l ++ [x]).reverse.takeWhile p).length =
      if p x then (l.reverse.takeWhile p).length + 1 else 0 := by
  by_cases h : p x <;> simp [List.takeWhile_cons, h]

/-- Characterisation of the trailing-space loop: it stops at the floor
`start` or at the last non-space byte of the first `e` bytes, whichever is
larger. -/
theorem shrinkEnd_eq (s : List Nat) (a : Nat) :
    ∀ e : Nat, e ≤ s.length → a ≤ e →
      shrinkEnd s a e = max a (e - ((s.take e).reverse.takeWhile isSpB).length)
  | 0, _, ha => by
    have : a = 0 := Nat.le_zero.1 ha
    simp [shrinkEnd, this]
  | e + 1, he, ha => by
    have helt : e < s.length := by omega
    have hx : s.take (e + 1) = s.take e ++ [s.getD e 0] := by
      rw [List.take_succ]
      congr
      rw [List.getElem?_eq_getElem helt]
      simp [List.getD_eq_getElem?_getD, List.getElem?_eq_getElem helt]
    rw [hx, takeWhile_reverse_append_length]
    by_cases hc : a < e + 1 ∧ isSpB (s.getD e 0)
    · have hrec := shrinkEnd_eq s a e (by omega) (by omega)
      rw [shrinkEnd, if_pos hc, hrec, if_pos hc.2]
      omega
    · rw [shrinkEnd, if_neg hc]
      rcases not_and_or.1 hc with h | h
      · have ha' : a = e + 1 := by omega
        cases hsp : isSpB (s.getD e 0) with
        | false => simp; omega
        | true => simp; omega
      · rw [if_neg h]
        omega

theorem takeWhile_append_of_exists (p : Nat → Bool) :
    ∀ xs ys : List Nat, (∃ x ∈ xs, ¬ p x) →
      (xs ++ ys).takeWhile p = xs.takeWhile p
  | [], _, h => by simp at h
  | x :: xs, ys, h => by
    by_cases hx : p x
    · have h' : ∃ y ∈ xs, ¬ p y := by
        rcases h with ⟨z, hz, hpz⟩
        rcases List.mem_cons.1 hz with rfl | hz'
        · exact absurd hx hpz
        · exact ⟨z, hz', hpz⟩
      simp [List.takeWhile_cons, hx, takeWhile_append_of_exists p xs ys h']
    · simp [List.takeWhile_cons, hx]

theorem length_takeWhile_lt_of_exists (p : Nat → Bool) :
    ∀ xs : List Nat, (∃ x ∈ xs, ¬ p x) → (xs.takeWhile p).length < xs.length
  | [], h => by simp at h
  | x :: xs, h => by
    by_cases hx : p x
    · have h' : ∃ y ∈ xs, ¬ p y := by
        rcases h with ⟨z, hz, hpz⟩
        rcases List.mem_cons.1 hz with rfl | hz'
        · exact absurd hx hpz
        · exact ⟨z, hz', hpz⟩
      simpa [List.takeWhile_cons, hx] using length_takeWhile_lt_of_exists p xs h'
    · simp [List.takeWhile_cons, hx]

theorem dropWhile_head_not (p : Nat → Bool) :
    ∀ l : List Nat, l.dropWhile p = [] ∨
      ∃ c rest, l.dropWhile p = c :: rest ∧ p c = false
  | [] => Or.inl rfl
  | c :: l => by
    by_cases h : p c
    · simpa [List.dropWhile_cons, h] using dropWhile_head_not p l
    · exact Or.inr ⟨c, l, by simp [List.dropWhile_cons, h], by simp [h]⟩

theorem reverse_dropWhile_eq_take (p : Nat → Bool) (l : List Nat) :
    (l.reverse.dropWhile p).reverse =
      l.take (l.length - (l.reverse.takeWhile p).length) := by
  rw [dropWhile_eq_drop_len, List.drop_reverse, List.reverse_reverse]

/-- The two index loops of the C++ `trim` compute exactly dropWhile-trimming
from both ends. -/
theorem trim_eq_trimSpec (s : List Nat) : trim s = trimSpec s := by
  have ha_le : leadSpaces s ≤ s.length := leadSpaces_le_length s
  have hshr := shrinkEnd_eq s (leadSpaces s) s.length le_rfl ha_le
  rw [List.take_length] at hshr
  simp only [trim, trimSpec]
  rw [hshr, drop_leadSpaces s, reverse_dropWhile_eq_take]
  rcases dropWhile_head_not isSpB s with hu | ⟨c, rest, hu, hpc⟩
  · rw [hu]; simp
  · have hlen : s.length = leadSpaces s + (s.dropWhile isSpB).length := by
      have h := congrArg List.length (List.takeWhile_append_dropWhile isSpB s)
      rw [leadSpaces_eq_takeWhile_length]
      simp only [List.length_append] at h
      omega
    have hsplit : (s.takeWhile isSpB) ++ s.dropWhile isSpB = s :=
      List.takeWhile_append_dropWhile isSpB s
    have hrev : s.reverse = (s.dropWhile isSpB).reverse ++ (s.takeWhile isSpB).reverse := by
      rw [← List.reverse_append, hsplit]
    have hcmem : ∃ x ∈ (s.dropWhile isSpB).reverse, ¬ isSpB x :=
      ⟨c, by rw [List.mem_reverse, hu]; exact List.mem_cons_self c rest, by simp [hpc]⟩
    have htc : (s.reverse.takeWhile isSpB).length =
        ((s.dropWhile isSpB).reverse.takeWhile isSpB).length := by
      rw [hrev, takeWhile_append_of_exists isSpB _ _ hcmem]
    have htcu : ((s.dropWhile isSpB).reverse.takeWhile isSpB).length <
        (s.dropWhile isSpB).length := by
      have := length_takeWhile_lt_of_exists isSpB _ hcmem
      simpa using this
    rw [htc]
    congr 1
    omega

/-- C7: for every column index within range, `getHeader` returns exactly the
bytes designated by header index record `i` — the `stop - start + 1` source
bytes beginning at `start` — after replacing each doubled quote by a single
quote and then trimming leading and trailing ASCII whitespace; and it returns
the empty string for an empty header entry (the `stop < start` sentinel,
i.e. zero content length). -/
theorem c7_get_header_round_trip (file : List Nat) (records : List (Nat × Nat))
    (i start stop : Nat) (hrec : records[i]? = some (start, stop)) :
    (stop < start → getHeader file records i = .ok []) ∧
    (start ≤ stop → stop < file.length →
      getHeader file records i =
        .ok (trimSpec (unescapeCsvField ((file.drop start).take (stop - start + 1))))) := by
  constructor
  · intro h
    simp [getHeader, readPair, hrec, h]
  · intro h1 h2
    have hns : ¬ stop < start := not_lt.2 h1
    have hlen : start + (stop - start + 1) ≤ file.length := by omega
    simp [getHeader, readPair, hrec, hns, hlen, trim_eq_trimSpec]

/-- Witness for C7 on the header row `ab,,c` (second field empty): column 0
round-trips to `ab`, and the empty column 1 (record `(3, 2)`) yields the
empty string. -/
theorem c7_witness :
    (parseHeaderRecords [97, 98, 44, 44, 99, 10])[0]? = some (0, 1) ∧
    getHeader [97, 98, 44, 44, 99, 10] (parseHeaderRecords [97, 98, 44, 44, 99, 10]) 0 =
      .ok (trimSpec (unescapeCsvField (([97, 98, 44, 44, 99, 10].drop 0).take (1 - 0 + 1)))) ∧
    (parseHeaderRecords [97, 98, 44, 44, 99, 10])[1]? = some (3, 2) ∧
    getHeader [97, 98, 44, 44, 99, 10] (parseHeaderRecords [97, 98, 44, 44, 99, 10]) 1 =
      .ok [] :=
  ⟨by decide,
   (c7_get_header_round_trip _ _ 0 0 1 (by decide)).2 (by decide) (by decide),
   by decide,
   (c7_get_header_round_trip _ _ 1 3 2 (by decide)).1 (by decide)⟩

/-! ### Lemmas for the global-dictionary merge order (C3) -/

/-- Keys of a sorted insertion: the `std::map` keeps its key set sorted. -/
theorem smapInsert_keys :
    ∀ (m : SMap) (k : List Nat) (v : Nat),
      (smapInsert m k v).map Prod.fst = sortedInsertKey k (m.map Prod.fst)
  | [], _, _ => rfl
  | (k', v') :: rest, k, v => by
    by_cases hlt : lexLt k k'
    · simp [smapInsert, sortedInsertKey, hlt]
    · simp [smapInsert, sortedInsertKey, hlt, smapInsert_keys rest k v]

/-- Lookup after insertion succeeds exactly for the inserted key or a key that
was already found. -/
theorem mapFind_smapInsert_isSome :
    ∀ (m : SMap) (k : List Nat) (v : Nat) (q : List Nat),
      (mapFind (smapInsert m k v) q).isSome ↔ q = k ∨ (mapFind m q).isSome
  | [], k, v, q => by
    by_cases h : q = k <;> simp [smapInsert, mapFind, h]
  | (k', v') :: rest, k, v, q => by
    by_cases hlt : lexLt k k'
    · by_cases h : q = k <;> simp [smapInsert, mapFind, hlt, h]
    · by_cases h' : q = k'
      · simp [smapInsert, mapFind, hlt, h']
      · simp [smapInsert, mapFind, hlt, h', mapFind_smapInsert_isSome rest k v q]

/-- Appending one element and sorting is a sorted insertion. -/
theorem sortLex_append_singleton (d : List (List Nat)) (k : List Nat) :
    sortLex (d ++ [k]) = sortedInsertKey k (sortLex d) := by
  simp [sortLex, List.foldl_append]

/-- Invariant of the thread-local dictionary build: its key list is the
sorted version of the first-seen distinct-token list, and a lookup succeeds
exactly for encountered tokens. -/
theorem foldl_localDictStep_keys :
    ∀ (toks : List (List Nat)) (m : SMap) (d : List (List Nat)),
      m.map Prod.fst = sortLex d →
      (∀ k, (mapFind m k).isSome ↔ k ∈ d) →
      ((toks.foldl localDictStep m).map Prod.fst = sortLex (toks.foldl dedupStep d) ∧
        ∀ k, (mapFind (toks.foldl localDictStep m) k).isSome ↔
          k ∈ toks.foldl dedupStep d)
  | [], _, _, h1, h2 => ⟨h1, h2⟩
  | t :: toks, m, d, h1, h2 => by
    have hfound : t ∈ d → localDictStep m t = m := by
      intro ht
      obtain ⟨v, hv⟩ := Option.isSome_iff_exists.1 ((h2 t).2 ht)
      simp [localDictStep, hv]
    have hnone : t ∉ d → mapFind m t = none := by
      intro ht
      rcases hfind : mapFind m t with _ | v
      · rfl
      · exact absurd ((h2 t).1 (by simp [hfind])) ht
    have hstep1 : (localDictStep m t).map Prod.fst = sortLex (dedupStep d t) := by
      by_cases ht : t ∈ d
      · rw [hfound ht]; simp [dedupStep, ht, h1]
      · simp [localDictStep, hnone ht, dedupStep, ht, smapInsert_keys, h1,
          sortLex_append_singleton]
    have hstep2 : ∀ k, (mapFind (localDictStep m t) k).isSome ↔ k ∈ dedupStep d t := by
      intro k
      by_cases ht : t ∈ d
      · rw [hfound ht]; simp [dedupStep, ht, h2 k]
      · simp only [localDictStep, hnone ht]
        rw [mapFind_smapInsert_isSome]
        simp [dedupStep, ht, h2 k]
        tauto
    simpa using foldl_localDictStep_keys toks _ _ hstep1 hstep2

/-- The key list of a thread-local dictionary is the lexicographically sorted
list of its first-seen distinct tokens. -/
theorem buildLocalDict_keys (toks : List (List Nat)) :
    (buildLocalDict toks).map Prod.fst = sortLex (dedupFirstSeen toks) :=
  (foldl_localDictStep_keys toks [] [] rfl (by intro k; simp [mapFind])).1

/-- C3 amended: the global dictionary codes are assigned by iterating the
thread-local dictionaries in ascending thread-index order and, within each
thread's dictionary, in ascending byte-wise lexicographic token order (the
`std::map` iteration order), assigning the next dense global id to each token
not already present — for every list of per-thread token sequences. -/
theorem c3_global_codes_sorted_merge (threadTokens : List (List (List Nat))) :
    globalCodes threadTokens = specSortedDict threadTokens := by
  unfold globalCodes mergeGlobalDict specSortedDict
  rw [List.foldl_map]
  congr 1
  funext g toks
  rw [← buildLocalDict_keys toks, List.foldl_map]

/-- C10: when the source file is empty, or the header row extends to
end-of-file so that `find_first_data_offset` is not below the file size,
`findRowOffsets` creates one empty part file per worker and returns early:
the merged file is untouched, the part files are not deleted, and the stored
row count is not modified (it stays at its initial 0). -/
theorem c10_no_data_early_return (file : List Nat) (N expectedCols : Nat) (skip : Bool)
    (h : file.length = 0 ∨ find_first_data_offset file ≥ file.length) :
    findRowOffsets file N expectedCols skip =
      Except.ok ⟨List.replicate N [], none, false, none⟩ := by
  rcases h with h | h
  · simp [findRowOffsets, h]
  · by_cases h0 : file.length = 0
    · simp [findRowOffsets, h0]
    · simp [findRowOffsets, h0, h]

/-- Witness for C10: an empty file, and a header-only file `h,i` without a
newline. -/
theorem c10_witness :
    findRowOffsets [] 4 0 true = Except.ok ⟨List.replicate 4 [], none, false, none⟩ ∧
    findRowOffsets [104, 44, 105] 4 2 true =
      Except.ok ⟨List.replicate 4 [], none, false, none⟩ :=
  ⟨c10_no_data_early_return [] 4 0 true (Or.inl rfl),
   c10_no_data_early_return [104, 44, 105] 4 2 true (Or.inr (by decide))⟩

/-- Supporting policy theorem for the row-end handler: a blank row is always
dropped silently (no offset emitted, no abort, for either skip setting); a
non-blank row whose computed `commaCount + 1` differs from the expected
column count is dropped silently when skipping is enabled, and otherwise
aborts the build with a diagnostic that contains the row's starting byte
offset and the expected and found field counts.  The trailing closed
conjuncts exercise the same behaviour through `findRowOffsets`: the
one-field row `1` against a two-column header aborts the build with the
diagnostic for offset 4 when skipping is disabled and is dropped silently
when enabled, and a whitespace-only row (space, tab) is dropped under
either setting. -/
theorem handle_row_end_policy
    (rowNotBlank : Bool) (commaCount expectedCols : Nat) (skip : Bool) (cur : Nat) :
    (rowNotBlank = false →
      handle_row_end rowNotBlank commaCount expectedCols skip cur = ⟨none, none⟩) ∧
    (rowNotBlank = true → commaCount + 1 ≠ expectedCols → skip = true →
      handle_row_end rowNotBlank commaCount expectedCols skip cur = ⟨none, none⟩) ∧
    (rowNotBlank = true → commaCount + 1 ≠ expectedCols → skip = false →
      (handle_row_end rowNotBlank commaCount expectedCols skip cur).emitted = none ∧
      (handle_row_end rowNotBlank commaCount expectedCols skip cur).abortMsg =
        some (mismatchMsg cur expectedCols (commaCount + 1)) ∧
      ∃ u v w, (mismatchMsg cur expectedCols (commaCount + 1)).data =
        u ++ (toString cur).data ++ v ++ (toString expectedCols).data ++ w ++
          (toString (commaCount + 1)).data) ∧
    findRowOffsets [97, 44, 98, 10, 49, 10] 1 2 false =
      Except.error (mismatchMsg 4 2 1) ∧
    findRowOffsets [97, 44, 98, 10, 49, 10] 1 2 true =
      Except.ok ⟨[[]], some [], true, some 0⟩ ∧
    findRowOffsets [97, 44, 98, 10, 32, 9, 10, 49, 44, 50, 10] 1 2 false =
      Except.ok ⟨[[7]], some [7], true, some 1⟩ ∧
    findRowOffsets [97, 44, 98, 10, 32, 9, 10, 49, 44, 50, 10] 1 2 true =
      Except.ok ⟨[[7]], some [7], true, some 1⟩ := by
  refine ⟨?_, ?_, ?_, by decide, by decide, by decide, by decide⟩
  · rintro rfl; simp [handle_row_end]
  · rintro rfl h rfl; simp [handle_row_end, h]
  · rintro rfl h rfl
    refine ⟨by simp [handle_row_end, h], by simp [handle_row_end, h],
      "Column count mismatch at row starting offset ".data,
      ": expected ".data, ", found ".data, ?_⟩
    simp [mismatchMsg, String.data_append]

/-- Instances of the policy theorem: a blank row, a skipped one-field row
against a two-column header, and the abort diagnostic for the same row with
skipping disabled. -/
theorem handle_row_end_policy_check :
    handle_row_end false 3 2 false 5 = ⟨none, none⟩ ∧
    handle_row_end true 0 2 true 7 = ⟨none, none⟩ ∧
    (handle_row_end true 0 2 false 7).abortMsg = some (mismatchMsg 7 2 1) :=
  ⟨(handle_row_end_policy false 3 2 false 5).1 rfl,
   (handle_row_end_policy true 0 2 true 7).2.1 rfl (by decide) rfl,
   ((handle_row_end_policy true 0 2 false 7).2.2.1 rfl (by decide) rfl).2.1⟩

/-- C4: the claim states that a non-blank data row is dropped (with skipping
enabled) or aborts the build (with it disabled) when its unquoted-comma
count plus one differs from the header's column count.  The drop/abort
policy and the diagnostic are as described, but the counting is not: in the
file `a,b\n"x",y\n` the data row `"x",y` has unquoted-comma count 1 — the
scanner processes the comma after the closing quote outside quotes, so the
row has 1 + 1 = 2 fields, matching the two-column header — yet the builder
tests `st.inQuotes` before feeding the byte, never counts that comma,
computes 1 field, and silently drops the width-correct row when skipping is
enabled while aborting with "expected 2, found 1" when it is disabled. -/
theorem c4_quoted_comma_width_mismatch :
    unquotedCommaCount (quotedFieldRowCsv.drop 4) csvInit = 1 ∧
    parseHeaderColCount quotedFieldRowCsv = 2 ∧
    find_first_data_offset quotedFieldRowCsv = 4 ∧
    findRowOffsets quotedFieldRowCsv 1 2 true =
      Except.ok ⟨[[]], some [], true, some 0⟩ ∧
    findRowOffsets quotedFieldRowCsv 1 2 false =
      Except.error (mismatchMsg 4 2 1) := by
  decide

end TabularData
